import Mathlib

/-!
Verification development for the resume-critique analysis engine
(src/components/resume — PDF preview with margin, line-whitespace,
season-date and degree-abbreviation detectors).

The engine is embedded shallowly:

* JavaScript strings are modelled as lists of characters (JStr).
* Numbers (document points, viewport pixels, zoom factors) are modelled
  as rationals; canvas pixel buffers use naturals.
* Each concrete regular expression of the source is embedded as a
  dedicated executable matcher implementing JS leftmost-match /
  greedy-with-backtracking semantics for exactly that pattern
  (JS word characters, whitespace and case folding restricted to the
  ASCII range, and inputs free of line terminators, which is all the
  analysers ever produce).
* The pdf.js rendering collaborator's viewport transform
  (page.getViewport({scale}).convertToViewportPoint) is modelled from its
  boundary contract: at zoom z on a page of height H it maps a document
  point (x, y measured from the bottom) to (z * x, z * (H - y)).
-/

attribute [local semireducible] Rat.add Rat.sub Rat.mul Rat.inv Rat.ofScientific

/-- JavaScript strings are modelled as lists of characters. -/
abbrev JStr := List Char

/-- Shorthand turning a Lean string literal into the JStr model. -/
def js (s : String) : JStr := s.toList

/-- JS word character class \w = [A-Za-z0-9_] (ASCII). -/
def isWordChar (c : Char) : Bool := c.isAlpha || c.isDigit || c == '_'

/-- JS whitespace class \s restricted to ASCII (space, tab, LF, CR, VT, FF). -/
def isJsWs (c : Char) : Bool :=
  c == ' ' || c == '\t' || c == '\n' || c == '\r' || c.toNat == 11 || c.toNat == 12

/-- A word boundary holds after a word-character run when the rest of the
string is empty or starts with a non-word character. -/
def boundaryOk (rest : JStr) : Bool :=
  match rest with
  | [] => true
  | c :: _ => !isWordChar c

/-- Negative lookahead (?![a-zA-Z]): the rest must not start with a letter. -/
def lookNotAlpha (rest : JStr) : Bool :=
  match rest with
  | [] => true
  | c :: _ => !c.isAlpha

/-- String.prototype.toLowerCase (ASCII case folding). -/
def toLowerJ (s : JStr) : JStr := s.map Char.toLower

/-- Case-insensitive prefix test (pattern first). -/
def ciStartsWith : JStr → JStr → Bool
  | [], _ => true
  | _ :: _, [] => false
  | p :: ps, c :: cs => (p.toLower == c.toLower) && ciStartsWith ps cs

/-- String.prototype.trim: strip JS whitespace at both ends. -/
def trimJ (s : JStr) : JStr :=
  ((s.dropWhile isJsWs).reverse.dropWhile isJsWs).reverse

/-- Array.prototype.join(' '). -/
def joinSp : List JStr → JStr
  | [] => []
  | [x] => x
  | x :: xs => x ++ ' ' :: joinSp xs

/-- String.prototype.includes via suffix scanning (needle, haystack). -/
def includesJGo (nd : JStr) : ℕ → JStr → Bool
  | 0, s => nd.isPrefixOf s
  | f + 1, s =>
    nd.isPrefixOf s ||
      match s with
      | [] => false
      | _ :: cs => includesJGo nd f cs

/-- String.prototype.includes (needle, haystack). -/
def includesJ (nd hay : JStr) : Bool := includesJGo nd hay.length hay

/-- TextFragment: one positioned text run from the pdf.js text layer, after
the source's mapping (str, transform[4], transform[5], width, height||12). -/
structure TItem where
  str : JStr
  x : ℚ
  y : ℚ
  width : ℚ
  height : ℚ
deriving DecidableEq

/-- Placeholder item for out-of-range index accesses (never reached on the
index ranges the analysers use). -/
def noItem : TItem := ⟨[], 0, 0, 0, 0⟩

/-- One page handed to the document-wide analysers: the scale = 1 viewport
height and the raw text-content items. -/
structure PageInput where
  height : ℚ
  items : List TItem
deriving DecidableEq

/-- pdf.js viewport.convertToViewportPoint at zoom z on a page of height H
(modelled from the rendering collaborator's boundary contract). -/
def convertToViewportPoint (z H x y : ℚ) : ℚ × ℚ := (z * x, z * (H - y))

/-! ## Engine constants (source lines 51–62) -/

def ZOOM_LEVELS : List ℚ := [0.5, 0.75, 1.0, 1.25, 1.5, 1.75, 2.0]
def MARGIN_THRESHOLD_INCHES : ℚ := 0.7
def NEAR_WHITE_THRESHOLD : ℕ := 230
def SECTION_KEYWORDS : List JStr := [js "experience", js "projects", js "leadership", js "skills"]
def WHITESPACE_THRESHOLD : ℚ := 0.25
def LINE_TOLERANCE_PTS : ℚ := 2

/-- SEASON_TO_MONTH record lookup (keys are lowercased season words; other
keys would be undefined in JS and are never produced by the matchers). -/
def SEASON_TO_MONTH (s : JStr) : JStr :=
  if s == js "spring" then js "May"
  else if s == js "fall" then js "December"
  else if s == js "summer" then js "August"
  else if s == js "winter" then js "December"
  else []

/-! ## Line clusterer (analyzeWhitespace step 1, source lines 371–398)

The source inserts projected entries {pdfX, pdfXRight, screenY, str} into a
Map keyed by pdfY; bucket search compares only the key, so we cluster the
full items and project afterwards, which commutes with the source order. -/

/-- Insert one fragment into the ordered bucket list: join the first bucket
whose key is within tolerance of the fragment's baseline-y (first-match-wins,
appended at the end), otherwise open a new bucket keyed by that y. -/
def insertLine (tol : ℚ) (it : TItem) : List (ℚ × List TItem) → List (ℚ × List TItem)
  | [] => [(it.y, [it])]
  | (k, es) :: rest =>
    if |k - it.y| ≤ tol then (k, es ++ [it]) :: rest
    else (k, es) :: insertLine tol it rest

/-- Single clustering pass over a fragment list (no whitespace filtering;
analyzeWhitespace additionally discards whitespace-only fragments first). -/
def clusterLines (tol : ℚ) (items : List TItem) : List (ℚ × List TItem) :=
  items.foldl (fun m it => insertLine tol it m) []

/-- Two fragments were placed in the same Line of a bucket list. -/
def sameLine (m : List (ℚ × List TItem)) (a b : TItem) : Prop :=
  ∃ kv ∈ m, a ∈ kv.2 ∧ b ∈ kv.2

instance (m : List (ℚ × List TItem)) (a b : TItem) : Decidable (sameLine m a b) := by
  unfold sameLine; infer_instance

/-! ### Clustering facts -/

/-- Every member of a bucket lies within tolerance of the bucket's key. -/
def bucketsSound (tol : ℚ) (m : List (ℚ × List TItem)) : Prop :=
  ∀ kv ∈ m, ∀ it ∈ kv.2, |it.y - kv.1| ≤ tol

theorem insertLine_sound {tol : ℚ} (htol : 0 ≤ tol) (it : TItem) :
    ∀ m : List (ℚ × List TItem), bucketsSound tol m → bucketsSound tol (insertLine tol it m) := by
  intro m
  induction m with
  | nil =>
    intro _ kv hkv e he
    simp only [insertLine, List.mem_singleton] at hkv
    subst hkv
    simp only [List.mem_singleton] at he
    subst he
    simpa using htol
  | cons hd tl ih =>
    intro hs kv hkv e he
    obtain ⟨k, es⟩ := hd
    simp only [insertLine] at hkv
    by_cases hcl : |k - it.y| ≤ tol
    · simp only [if_pos hcl, List.mem_cons] at hkv
      rcases hkv with hkv | hkv
      · subst hkv
        simp only [List.mem_append, List.mem_singleton] at he
        rcases he with he | he
        · exact hs (k, es) (List.mem_cons_self _ _) e he
        · subst he
          rw [abs_sub_comm]
          exact hcl
      · exact hs kv (List.mem_cons_of_mem _ hkv) e he
    · simp only [if_neg hcl, List.mem_cons] at hkv
      rcases hkv with hkv | hkv
      · subst hkv
        exact hs (k, es) (List.mem_cons_self _ _) e he
      · exact ih (fun kv h => hs kv (List.mem_cons_of_mem _ h)) kv hkv e he

theorem clusterLines_sound {tol : ℚ} (htol : 0 ≤ tol) (items : List TItem) :
    bucketsSound tol (clusterLines tol items) := by
  unfold clusterLines
  have main : ∀ (l : List TItem) (m : List (ℚ × List TItem)), bucketsSound tol m →
      bucketsSound tol (l.foldl (fun m it => insertLine tol it m) m) := by
    intro l
    induction l with
    | nil => intro m hm; simpa using hm
    | cons hd tl ih =>
      intro m hm
      exact ih _ (insertLine_sound htol hd m hm)
  exact main items [] (by intro kv h; simp at h)

/-! ### C2 concrete inputs -/

def c2A0 : TItem := ⟨js "a", 0, 0, 10, 10⟩
def c2A1 : TItem := ⟨js "b", 0, 4, 10, 10⟩
def c2A2 : TItem := ⟨js "c", 0, 2, 10, 10⟩
def c2ItemsA : List TItem := [c2A0, c2A1, c2A2]

def c2B0 : TItem := ⟨js "d", 0, 10, 10, 10⟩
def c2B1 : TItem := ⟨js "e", 0, 8, 10, 10⟩
def c2B2 : TItem := ⟨js "f", 0, 12, 10, 10⟩
def c2ItemsB : List TItem := [c2B0, c2B1, c2B2]

/-- C2 counterexample: at the engine's tolerance 2, fragments at baseline-y 4
and 2 (difference 2, within tolerance) land in different Lines, and fragments
at baseline-y 8 and 12 (difference 4, strictly greater than tolerance) land in
the same Line, refuting both halves of the claimed clustering property. -/
theorem c2_counterexample :
    (|c2A1.y - c2A2.y| ≤ LINE_TOLERANCE_PTS ∧
      ¬ sameLine (clusterLines LINE_TOLERANCE_PTS c2ItemsA) c2A1 c2A2) ∧
    (LINE_TOLERANCE_PTS < |c2B1.y - c2B2.y| ∧
      sameLine (clusterLines LINE_TOLERANCE_PTS c2ItemsB) c2B1 c2B2) := by
  refine ⟨⟨by decide, by decide⟩, ⟨by decide, by decide⟩⟩

/-- C2 (amended): a single clustering pass puts every fragment within
tolerance of its bucket's founding key, hence two fragments in the same Line
differ in baseline-y by at most twice the tolerance; fragments further apart
than twice the tolerance are never clustered together, while fragments within
tolerance of each other may still be split across Lines (first-match-wins). -/
theorem c2_cluster_tolerance (tol : ℚ) (items : List TItem) (htol : 0 ≤ tol) :
    (∀ kv ∈ clusterLines tol items, ∀ it ∈ kv.2, |it.y - kv.1| ≤ tol) ∧
    (∀ a b, sameLine (clusterLines tol items) a b → |a.y - b.y| ≤ 2 * tol) := by
  refine ⟨clusterLines_sound htol items, ?_⟩
  rintro a b ⟨kv, hkv, ha, hb⟩
  have h1 := clusterLines_sound htol items kv hkv a ha
  have h2 := clusterLines_sound htol items kv hkv b hb
  calc |a.y - b.y| = |(a.y - kv.1) - (b.y - kv.1)| := by ring_nf
    _ ≤ |a.y - kv.1| + |b.y - kv.1| := abs_sub _ _
    _ ≤ 2 * tol := by linarith

/-- Witness for c2_cluster_tolerance at tolerance 2 on concrete fragments. -/
theorem c2_cluster_tolerance_witness :
    (0 ≤ LINE_TOLERANCE_PTS ∧ sameLine (clusterLines LINE_TOLERANCE_PTS c2ItemsB) c2B1 c2B2) ∧
    |c2B1.y - c2B2.y| ≤ 2 * LINE_TOLERANCE_PTS :=
  ⟨⟨by decide, by decide⟩,
    (c2_cluster_tolerance LINE_TOLERANCE_PTS c2ItemsB (by decide)).2 c2B1 c2B2 (by decide)⟩

/-! ## Raster margin scanner (detectWhitespaceMargins, source lines 79–127)

The canvas is modelled by its physical pixel dimensions, CSS dimensions and
an optional flat RGBA byte array; pixels = none models the failure paths
(2D context unavailable, or getImageData throwing), which the source's
null-check and try/catch both turn into a null return. -/

structure Canvas where
  physW : ℕ
  physH : ℕ
  cssW : ℚ
  cssH : ℚ
  pixels : Option (ℕ → ℕ)

/-- The four physical-pixel edge distances returned by the scanner. -/
structure EdgeMargins where
  top : ℕ
  bottom : ℕ
  left : ℕ
  right : ℕ
deriving DecidableEq

/-- A pixel counts as whitespace when all three colour channels strictly
exceed the near-white threshold (idx is the flat RGBA offset). -/
def isWhitespacePx (data : ℕ → ℕ) (idx : ℕ) : Bool :=
  decide (NEAR_WHITE_THRESHOLD < data idx) &&
  decide (NEAR_WHITE_THRESHOLD < data (idx + 1)) &&
  decide (NEAR_WHITE_THRESHOLD < data (idx + 2))

/-- Row y contains some non-whitespace pixel (full-width scan). -/
def rowHasInk (w : ℕ) (data : ℕ → ℕ) (y : ℕ) : Bool :=
  (List.range w).any (fun x => !isWhitespacePx data ((y * w + x) * 4))

/-- Column x contains some non-whitespace pixel (full-height scan). -/
def colHasInk (w h : ℕ) (data : ℕ → ℕ) (x : ℕ) : Bool :=
  (List.range h).any (fun y => !isWhitespacePx data ((y * w + x) * 4))

/-- detectWhitespaceMargins: scan each edge inward for the first line with a
non-whitespace pixel; each accumulator starts at 0 and is only assigned when
such a line is found, so a scan that finds none reports 0. -/
def detectWhitespaceMargins (cv : Canvas) : Option EdgeMargins :=
  match cv.pixels with
  | none => none
  | some data =>
    let w := cv.physW
    let h := cv.physH
    some
      { top := ((List.range h).find? (rowHasInk w data)).getD 0
        bottom := (((List.range h).reverse.find? (rowHasInk w data)).map (fun y => h - 1 - y)).getD 0
        left := ((List.range w).find? (colHasInk w h data)).getD 0
        right := (((List.range w).reverse.find? (colHasInk w h data)).map (fun x => w - 1 - x)).getD 0 }

/-- Every pixel of the canvas raster is near-white. -/
def allNearWhite (cv : Canvas) (data : ℕ → ℕ) : Prop :=
  ∀ y < cv.physH, ∀ x < cv.physW,
    NEAR_WHITE_THRESHOLD < data ((y * cv.physW + x) * 4) ∧
    NEAR_WHITE_THRESHOLD < data ((y * cv.physW + x) * 4 + 1) ∧
    NEAR_WHITE_THRESHOLD < data ((y * cv.physW + x) * 4 + 2)

instance (cv : Canvas) (data : ℕ → ℕ) : Decidable (allNearWhite cv data) := by
  unfold allNearWhite; infer_instance

/-- A concrete 2×2 canvas whose raster is entirely near-white. -/
def whiteCanvas : Canvas := ⟨2, 2, 2, 2, some (fun _ => 255)⟩

/-- C3 counterexample: on an entirely near-white 2×2 raster the scanner does
not report the full page dimensions (it reports 0 on every edge), refuting
the claim that all four margins equal the full corresponding dimension. -/
theorem c3_counterexample :
    detectWhitespaceMargins whiteCanvas ≠
      some ⟨whiteCanvas.physH, whiteCanvas.physH, whiteCanvas.physW, whiteCanvas.physW⟩ := by
  decide

/-- C3 (amended): given a raster in which every pixel is near-white, the
margin scanner reports all four edge distances equal to 0 — each directional
scan finds no line containing ink and leaves its accumulator at its initial
value 0 (not the full page dimension). -/
theorem c3_allwhite_margins (cv : Canvas) (data : ℕ → ℕ)
    (hpx : cv.pixels = some data) (hwhite : allNearWhite cv data) :
    detectWhitespaceMargins cv = some ⟨0, 0, 0, 0⟩ := by
  have hrow : ∀ y ∈ List.range cv.physH, ¬ (rowHasInk cv.physW data y = true) := by
    intro y hy
    rw [List.mem_range] at hy
    unfold rowHasInk
    simp only [List.any_eq_true, List.mem_range, Bool.not_eq_true', not_exists, not_and]
    intro x hx
    obtain ⟨h0, h1, h2⟩ := hwhite y hy x hx
    unfold isWhitespacePx
    simp [h0, h1, h2]
  have hcol : ∀ x ∈ List.range cv.physW, ¬ (colHasInk cv.physW cv.physH data x = true) := by
    intro x hx
    rw [List.mem_range] at hx
    unfold colHasInk
    simp only [List.any_eq_true, List.mem_range, Bool.not_eq_true', not_exists, not_and]
    intro y hy
    obtain ⟨h0, h1, h2⟩ := hwhite y hy x hx
    unfold isWhitespacePx
    simp [h0, h1, h2]
  have hrfind : (List.range cv.physH).find? (rowHasInk cv.physW data) = none :=
    List.find?_eq_none.mpr hrow
  have hrfindr : (List.range cv.physH).reverse.find? (rowHasInk cv.physW data) = none :=
    List.find?_eq_none.mpr (fun y hy => hrow y (List.mem_reverse.mp hy))
  have hcfind : (List.range cv.physW).find? (colHasInk cv.physW cv.physH data) = none :=
    List.find?_eq_none.mpr hcol
  have hcfindr : (List.range cv.physW).reverse.find? (colHasInk cv.physW cv.physH data) = none :=
    List.find?_eq_none.mpr (fun x hx => hcol x (List.mem_reverse.mp hx))
  unfold detectWhitespaceMargins
  rw [hpx]
  simp only [hrfind, hrfindr, hcfind, hcfindr, Option.map_none', Option.getD_none]

/-- Witness for c3_allwhite_margins on the concrete all-white 2×2 canvas. -/
theorem c3_allwhite_margins_witness :
    (whiteCanvas.pixels = some (fun _ => 255) ∧ allNearWhite whiteCanvas (fun _ => 255)) ∧
    detectWhitespaceMargins whiteCanvas = some ⟨0, 0, 0, 0⟩ :=
  ⟨⟨rfl, by decide⟩, c3_allwhite_margins whiteCanvas (fun _ => 255) rfl (by decide)⟩

/-! ## Line utilization analyzer (analyzeWhitespace, source lines 364–469) -/

/-- Stable insertion step for sortByX: an element passes every strictly
smaller key and stops before the first key it is ≤, so elements with equal
keys keep their original relative order. -/
def insertByX (it : TItem) : List TItem → List TItem
  | [] => [it]
  | b :: bs => if it.x ≤ b.x then it :: b :: bs else b :: insertByX it bs

/-- Array.prototype.sort with comparator (a, b) => a.x - b.x: a stable
ascending sort by x (insertion sort, which computes the same list as any
stable comparison sort). -/
def sortByX : List TItem → List TItem
  | [] => []
  | a :: rest => insertByX a (sortByX rest)

/-- Math.min over a spread argument list (sources only apply it to nonempty
lists, guarded by the length check). -/
def jsMin : List ℚ → ℚ
  | [] => 0
  | x :: xs => xs.foldl min x

/-- Math.max over a spread argument list (same shape as jsMin). -/
def jsMax : List ℚ → ℚ
  | [] => 0
  | x :: xs => xs.foldl max x

/-- Step 1 of analyzeWhitespace: skip whitespace-only fragments and cluster
the rest by pdf baseline-y into the insertion-ordered line map. -/
def wsLineMap (items : List TItem) : List (ℚ × List TItem) :=
  items.foldl
    (fun m it => if (trimJ it.str).isEmpty then m else insertLine LINE_TOLERANCE_PTS it m) []

/-- The joined lowercased trimmed text of a clustered line (join with spaces
in insertion order, as the header check builds it). -/
def lineTextOf (kv : ℚ × List TItem) : JStr :=
  trimJ (toLowerJ (joinSp (kv.2.map (·.str))))

/-- Step 2 header test: the line text contains a section keyword and the
whole line is shorter than 60 characters. -/
def isHeaderBucket (kv : ℚ × List TItem) : Bool :=
  SECTION_KEYWORDS.any (fun kw => includesJ kw (lineTextOf kv)) &&
    decide ((lineTextOf kv).length < 60)

/-- The pdf-y keys of the header lines (the source's headerPdfYs set). -/
def headerKeys (m : List (ℚ × List TItem)) : List ℚ :=
  (m.filter isHeaderBucket).map (·.1)

/-- One iteration of the source's firstSectionPdfY accumulation. -/
def headerStep (acc : Option ℚ) (kv : ℚ × List TItem) : Option ℚ :=
  if isHeaderBucket kv then
    match acc with
    | none => some kv.1
    | some y => if kv.1 > y then some kv.1 else some y
  else acc

/-- firstSectionPdfY: fold over the line map keeping the largest header key
seen so far (none when the page has no header line). -/
def firstSectionPdfY (m : List (ℚ × List TItem)) : Option ℚ :=
  m.foldl headerStep none

/-- Step 3: the lines kept as content — key strictly below the reference and
not a header key. -/
def relevantLines (m : List (ℚ × List TItem)) (fy : ℚ) : List (ℚ × List TItem) :=
  m.filter (fun kv => decide (kv.1 < fy) && !(decide (kv.1 ∈ headerKeys m)))

/-- The per-line screen-space summary of step 4 (endpoints converted through
the zoom-z viewport; lineText sorted by x and joined without separator). -/
structure ScreenLine where
  screenY : ℚ
  screenXLeft : ℚ
  screenXRight : ℚ
  lineText : JStr
deriving DecidableEq

/-- Step 4 projection of one clustered line. The source computes screenY per
fragment at insertion time and later reads the first fragment's value, which
is what the head access reproduces; x endpoints use the bucket key as the y
argument exactly as the source does. -/
def toScreenLine (z H : ℚ) (kv : ℚ × List TItem) : ScreenLine :=
  { screenY :=
      match kv.2 with
      | [] => 0
      | it :: _ => (convertToViewportPoint z H it.x it.y).2
    screenXLeft := jsMin (kv.2.map (fun i => (convertToViewportPoint z H i.x kv.1).1))
    screenXRight := jsMax (kv.2.map (fun i => (convertToViewportPoint z H (i.x + i.width) kv.1).1))
    lineText := trimJ (((sortByX kv.2).map (·.str)).flatten) }

/-- One emitted line-whitespace indicator (screen px at the live zoom). -/
structure WhitespaceIndicator where
  x : ℚ
  y : ℚ
  width : ℚ
  lineText : JStr
  utilization : ℚ
deriving DecidableEq

/-- Steps 5–6 of analyzeWhitespace: the reference bounds are the min left /
max right endpoint over the content screen lines; flag every line whose
unused width exceeds the whitespace threshold of the reference width. -/
def wsIndicators (sls : List ScreenLine) : List WhitespaceIndicator :=
  let xLeft := jsMin (sls.map (·.screenXLeft))
  let xRight := jsMax (sls.map (·.screenXRight))
  let fullWidth := xRight - xLeft
  if fullWidth ≤ 0 then []
  else
    (sls.filter
        (fun l => decide (WHITESPACE_THRESHOLD < (xRight - l.screenXRight) / fullWidth))).map
      (fun l =>
        { x := l.screenXRight
          y := l.screenY - 1
          width := xRight - l.screenXRight
          lineText := l.lineText
          utilization := (l.screenXRight - xLeft) / fullWidth })

/-- analyzeWhitespace for the current page at zoom z on a page of scale-1
viewport height H: cluster, find the reference header, keep content lines
below it, project to screen space, and flag lines leaving more than the
whitespace threshold of the reference width unused. -/
def analyzeWhitespace (z H : ℚ) (items : List TItem) : List WhitespaceIndicator :=
  match firstSectionPdfY (wsLineMap items) with
  | none => []
  | some fy =>
    let rel := relevantLines (wsLineMap items) fy
    if rel.isEmpty then []
    else wsIndicators (rel.map (toScreenLine z H))

/-! ### C4: which header anchors the content block -/

def c4Hdr1 : TItem := ⟨js "Experience", 50, 700, 60, 10⟩
def c4Mid : TItem := ⟨js "Shorty", 0, 500, 40, 10⟩
def c4Hdr2 : TItem := ⟨js "Skills", 50, 400, 40, 10⟩
def c4Low : TItem := ⟨js "A reasonably long content line", 0, 300, 100, 10⟩
def c4Items : List TItem := [c4Hdr1, c4Mid, c4Hdr2, c4Low]

/-- C4 counterexample: with headers at baseline-y 700 and 400, the lowest
header is at 400, yet the only flagged line is the one at baseline-y 500 —
a line strictly above the lowest header — because the analyzer anchors the
content block at the highest header key (700), not the lowest. -/
theorem c4_counterexample :
    headerKeys (wsLineMap c4Items) = [700, 400] ∧
    (500, [c4Mid]) ∈ wsLineMap c4Items ∧
    ¬ ((500 : ℚ) < 400) ∧
    (analyzeWhitespace 1 792 c4Items).map (·.lineText) = [js "Shorty"] ∧
    (toScreenLine 1 792 (500, [c4Mid])).lineText = js "Shorty" := by
  refine ⟨by decide, by decide, by decide, by decide, by decide⟩

theorem headerFold_spec :
    ∀ (m : List (ℚ × List TItem)) (acc : Option ℚ) (Y : ℚ),
      m.foldl headerStep acc = some Y →
      (Y ∈ headerKeys m ∨ acc = some Y) ∧ (∀ k ∈ headerKeys m, k ≤ Y) ∧
        (∀ a, acc = some a → a ≤ Y) := by
  intro m
  induction m with
  | nil =>
    intro acc Y h
    simp only [List.foldl_nil] at h
    refine ⟨Or.inr h, ?_, ?_⟩
    · intro k hk
      simp [headerKeys] at hk
    · intro a ha
      rw [ha] at h
      injection h with h
      exact le_of_eq h
  | cons kv rest ih =>
    intro acc Y h
    rw [List.foldl_cons] at h
    have hkeys : headerKeys (kv :: rest) =
        if isHeaderBucket kv then kv.1 :: headerKeys rest else headerKeys rest := by
      unfold headerKeys
      rw [List.filter_cons]
      split
      · rfl
      · rfl
    have hkeysMem : ∀ x, x ∈ headerKeys rest → x ∈ headerKeys (kv :: rest) := by
      intro x hx
      rw [hkeys]
      split
      · exact List.mem_cons_of_mem _ hx
      · exact hx
    by_cases hh : isHeaderBucket kv
    · cases acc with
      | none =>
        have hstep : headerStep none kv = some kv.1 := by
          unfold headerStep
          rw [if_pos hh]
        rw [hstep] at h
        obtain ⟨hmem, hub, hacc⟩ := ih (some kv.1) Y h
        have hkY : kv.1 ≤ Y := hacc kv.1 rfl
        refine ⟨?_, ?_, ?_⟩
        · left
          rcases hmem with hmem | hmem
          · exact hkeysMem _ hmem
          · injection hmem with hmem
            rw [hkeys, if_pos hh, ← hmem]
            exact List.mem_cons_self _ _
        · intro k hk
          rw [hkeys, if_pos hh] at hk
          rcases List.mem_cons.mp hk with hk | hk
          · rw [hk]; exact hkY
          · exact hub k hk
        · intro a ha
          cases ha
      | some y =>
        by_cases hgt : kv.1 > y
        · have hstep : headerStep (some y) kv = some kv.1 := by
            unfold headerStep
            rw [if_pos hh]
            show (if kv.1 > y then some kv.1 else some y) = some kv.1
            rw [if_pos hgt]
          rw [hstep] at h
          obtain ⟨hmem, hub, hacc⟩ := ih (some kv.1) Y h
          have hkY : kv.1 ≤ Y := hacc kv.1 rfl
          refine ⟨?_, ?_, ?_⟩
          · left
            rcases hmem with hmem | hmem
            · exact hkeysMem _ hmem
            · injection hmem with hmem
              rw [hkeys, if_pos hh, ← hmem]
              exact List.mem_cons_self _ _
          · intro k hk
            rw [hkeys, if_pos hh] at hk
            rcases List.mem_cons.mp hk with hk | hk
            · rw [hk]; exact hkY
            · exact hub k hk
          · intro a ha
            injection ha with ha
            subst ha
            exact le_trans (le_of_lt hgt) hkY
        · have hstep : headerStep (some y) kv = some y := by
            unfold headerStep
            rw [if_pos hh]
            show (if kv.1 > y then some kv.1 else some y) = some y
            rw [if_neg hgt]
          rw [hstep] at h
          obtain ⟨hmem, hub, hacc⟩ := ih (some y) Y h
          have hyY : y ≤ Y := hacc y rfl
          have hkY : kv.1 ≤ Y := le_trans (not_lt.mp hgt) hyY
          refine ⟨?_, ?_, ?_⟩
          · rcases hmem with hmem | hmem
            · exact Or.inl (hkeysMem _ hmem)
            · exact Or.inr hmem
          · intro k hk
            rw [hkeys, if_pos hh] at hk
            rcases List.mem_cons.mp hk with hk | hk
            · rw [hk]; exact hkY
            · exact hub k hk
          · intro a ha
            injection ha with ha
            subst ha
            exact hyY
    · have hstep : headerStep acc kv = acc := by
        unfold headerStep
        rw [if_neg hh]
      rw [hstep] at h
      obtain ⟨hmem, hub, hacc⟩ := ih acc Y h
      refine ⟨?_, ?_, hacc⟩
      · rcases hmem with hmem | hmem
        · exact Or.inl (hkeysMem _ hmem)
        · exact Or.inr hmem
      · intro k hk
        rw [hkeys, if_neg hh] at hk
        exact hub k hk

/-- C4 (amended): the Line Utilization Analyzer anchors the content block at
the highest header Line on the page — the one with the largest baseline-y,
i.e. the first header scanning top-to-bottom — and the content lines are
exactly the clustered lines whose key is strictly below that maximum and is
not itself a header key; header lines and lines at or above the reference
yield no whitespace findings. -/
theorem c4_reference_header (items : List TItem) (fy : ℚ)
    (h : firstSectionPdfY (wsLineMap items) = some fy) :
    (fy ∈ headerKeys (wsLineMap items) ∧ ∀ k ∈ headerKeys (wsLineMap items), k ≤ fy) ∧
    (∀ kv, kv ∈ relevantLines (wsLineMap items) fy ↔
      kv ∈ wsLineMap items ∧ kv.1 < fy ∧ kv.1 ∉ headerKeys (wsLineMap items)) := by
  obtain ⟨hmem, hub, _⟩ := headerFold_spec (wsLineMap items) none fy h
  refine ⟨⟨?_, hub⟩, ?_⟩
  · rcases hmem with hmem | hmem
    · exact hmem
    · cases hmem
  · intro kv
    unfold relevantLines
    rw [List.mem_filter]
    simp only [Bool.and_eq_true, decide_eq_true_eq, Bool.not_eq_true', decide_eq_false_iff_not]

/-- Witness for c4_reference_header on the two-header concrete page. -/
theorem c4_reference_header_witness :
    firstSectionPdfY (wsLineMap c4Items) = some 700 ∧
    700 ∈ headerKeys (wsLineMap c4Items) :=
  ⟨by decide, (c4_reference_header c4Items 700 (by decide)).1.1⟩

/-! ## Solutions panel recommendation (source lines 814–832) -/

/-- One recommendation card choice for a flagged line. -/
structure Choice where
  key : JStr
  recommended : Bool
deriving DecidableEq

/-- The two choices offered for a flagged line: recommendShorten is
utilization ≤ 0.5; expand is recommended exactly when shorten is not. -/
def choicesFor (ind : WhitespaceIndicator) : List Choice :=
  let recommendShorten := decide (ind.utilization ≤ (0.5 : ℚ))
  [⟨js "expand", !recommendShorten⟩, ⟨js "shorten", recommendShorten⟩]

/-- C8 counterexample: the whitespace analyzer flags a line with utilization
2/5 ≤ 0.5, and the expand choice is not recommended for it (the shorten
choice is), refuting the claim that expand is recommended at ≤ 0.5. -/
theorem c8_counterexample :
    ¬ ∀ ind ∈ analyzeWhitespace 1 792 c4Items,
        ind.utilization ≤ (0.5 : ℚ) → (Choice.mk (js "expand") true) ∈ choicesFor ind := by
  decide

/-- C8 (amended): for every line flagged by the Line Utilization Analyzer
the recorded utilization ratio determines the downstream recommendation —
"shorten" is recommended when utilization ≤ 0.5 and "expand" is recommended
otherwise (the reverse of the claimed assignment). -/
theorem c8_recommendation (z H : ℚ) (items : List TItem) (ind : WhitespaceIndicator)
    (_hmem : ind ∈ analyzeWhitespace z H items) :
    ((Choice.mk (js "shorten") true) ∈ choicesFor ind ↔ ind.utilization ≤ (0.5 : ℚ)) ∧
    ((Choice.mk (js "expand") true) ∈ choicesFor ind ↔ ¬ (ind.utilization ≤ (0.5 : ℚ))) := by
  constructor
  · constructor
    · intro hc
      rcases List.mem_cons.mp hc with hc | hc
      · have := congrArg Choice.key hc
        simp [js] at this
      · rcases List.mem_singleton.mp hc with hc
        have := congrArg Choice.recommended hc
        simpa [decide_eq_true_eq] using this.symm
    · intro hu
      refine List.mem_cons_of_mem _ (List.mem_singleton.mpr ?_)
      simp [hu]
  · constructor
    · intro hc
      rcases List.mem_cons.mp hc with hc | hc
      · have := congrArg Choice.recommended hc
        intro hu
        rw [decide_eq_true hu] at this
        exact absurd this (by decide)
      · rcases List.mem_singleton.mp hc with hc
        have := congrArg Choice.key hc
        simp [js] at this
    · intro hu
      refine List.mem_cons.mpr (Or.inl ?_)
      simp [hu]

/-- Witness for c8_recommendation on the concrete flagged line. -/
theorem c8_recommendation_witness :
    ((⟨40, 291, 60, js "Shorty", 2/5⟩ : WhitespaceIndicator) ∈ analyzeWhitespace 1 792 c4Items) ∧
    ((Choice.mk (js "shorten") true) ∈ choicesFor ⟨40, 291, 60, js "Shorty", 2/5⟩ ↔
      ((2 : ℚ)/5) ≤ (0.5 : ℚ)) :=
  ⟨by decide, (c8_recommendation 1 792 c4Items ⟨40, 291, 60, js "Shorty", 2/5⟩ (by decide)).1⟩

/-! ### Zoom scaling of the whitespace pipeline (for C1) -/

theorem foldl_min_mul (z : ℚ) (hz : 0 ≤ z) :
    ∀ (l : List ℚ) (a : ℚ), (l.map (fun x => z * x)).foldl min (z * a) = z * l.foldl min a := by
  intro l
  induction l with
  | nil => intro a; rfl
  | cons x xs ih =>
    intro a
    simp only [List.map_cons, List.foldl_cons]
    rw [← mul_min_of_nonneg _ _ hz]
    exact ih (min a x)

theorem foldl_max_mul (z : ℚ) (hz : 0 ≤ z) :
    ∀ (l : List ℚ) (a : ℚ), (l.map (fun x => z * x)).foldl max (z * a) = z * l.foldl max a := by
  intro l
  induction l with
  | nil => intro a; rfl
  | cons x xs ih =>
    intro a
    simp only [List.map_cons, List.foldl_cons]
    rw [← mul_max_of_nonneg _ _ hz]
    exact ih (max a x)

theorem jsMin_mul (z : ℚ) (hz : 0 ≤ z) (l : List ℚ) :
    jsMin (l.map (fun x => z * x)) = z * jsMin l := by
  cases l with
  | nil => simp [jsMin]
  | cons x xs =>
    simp only [List.map_cons, jsMin]
    exact foldl_min_mul z hz xs x

theorem jsMax_mul (z : ℚ) (hz : 0 ≤ z) (l : List ℚ) :
    jsMax (l.map (fun x => z * x)) = z * jsMax l := by
  cases l with
  | nil => simp [jsMax]
  | cons x xs =>
    simp only [List.map_cons, jsMax]
    exact foldl_max_mul z hz xs x

/-- Scaling a screen line from the scale-1 viewport to zoom z. -/
def scaleSL (z : ℚ) (l : ScreenLine) : ScreenLine :=
  ⟨z * l.screenY, z * l.screenXLeft, z * l.screenXRight, l.lineText⟩

/-- Scaling an indicator from the scale-1 viewport to zoom z: x and width
scale linearly, y is the scaled baseline minus the fixed 1 px offset, and
the text and the utilization ratio are unchanged. -/
def scaleInd (z : ℚ) (ind : WhitespaceIndicator) : WhitespaceIndicator :=
  ⟨z * ind.x, z * (ind.y + 1) - 1, z * ind.width, ind.lineText, ind.utilization⟩

theorem toScreenLine_mul (z H : ℚ) (hz : 0 ≤ z) (kv : ℚ × List TItem) :
    toScreenLine z H kv = scaleSL z (toScreenLine 1 H kv) := by
  obtain ⟨k, its⟩ := kv
  unfold toScreenLine scaleSL
  simp only [convertToViewportPoint, one_mul, ScreenLine.mk.injEq]
  refine ⟨?_, ?_, ?_, trivial⟩
  · cases its with
    | nil => exact (mul_zero z).symm
    | cons it rest => rfl
  · rw [show (its.map fun i => z * i.x) = ((its.map fun i => i.x).map fun x => z * x) by
      rw [List.map_map]; rfl]
    exact jsMin_mul z hz _
  · rw [show (its.map fun i => z * (i.x + i.width)) =
        ((its.map fun i => i.x + i.width).map fun x => z * x) by rw [List.map_map]; rfl]
    exact jsMax_mul z hz _

theorem filter_map_comm {α β : Type} (f : α → β) (p : β → Bool) (l : List α) :
    (l.map f).filter p = (l.filter (fun x => p (f x))).map f := by
  induction l with
  | nil => rfl
  | cons a t ih =>
    simp only [List.map_cons, List.filter_cons]
    by_cases h : p (f a)
    · simp [h, ih]
    · simp [h, ih]

theorem wsIndicators_scale (z : ℚ) (hz : 0 < z) (sls : List ScreenLine) :
    wsIndicators (sls.map (scaleSL z)) = (wsIndicators sls).map (scaleInd z) := by
  have hz0 : 0 ≤ z := le_of_lt hz
  have hzne : z ≠ 0 := ne_of_gt hz
  unfold wsIndicators
  dsimp only
  have hxl : jsMin ((sls.map (scaleSL z)).map (·.screenXLeft)) =
      z * jsMin (sls.map (·.screenXLeft)) := by
    rw [List.map_map]
    rw [show (sls.map ((fun l => l.screenXLeft) ∘ scaleSL z)) =
        ((sls.map fun l => l.screenXLeft).map fun x => z * x) by rw [List.map_map]; rfl]
    exact jsMin_mul z hz0 _
  have hxr : jsMax ((sls.map (scaleSL z)).map (·.screenXRight)) =
      z * jsMax (sls.map (·.screenXRight)) := by
    rw [List.map_map]
    rw [show (sls.map ((fun l => l.screenXRight) ∘ scaleSL z)) =
        ((sls.map fun l => l.screenXRight).map fun x => z * x) by rw [List.map_map]; rfl]
    exact jsMax_mul z hz0 _
  rw [hxl, hxr]
  set xL := jsMin (sls.map (·.screenXLeft)) with hxL
  set xR := jsMax (sls.map (·.screenXRight)) with hxR
  have hfw : z * xR - z * xL = z * (xR - xL) := by ring
  rw [hfw]
  by_cases hpos : xR - xL ≤ 0
  · have hneg : z * (xR - xL) ≤ 0 := by nlinarith
    rw [if_pos hneg, if_pos hpos]
    rfl
  · have hzfw : ¬ (z * (xR - xL) ≤ 0) := by
      intro hcon
      exact hpos (by nlinarith)
    rw [if_neg hzfw, if_neg hpos]
    rw [filter_map_comm]
    have hcond : (fun l => decide (WHITESPACE_THRESHOLD <
        (z * xR - (scaleSL z l).screenXRight) / (z * (xR - xL)))) =
        (fun l => decide (WHITESPACE_THRESHOLD < (xR - l.screenXRight) / (xR - xL))) := by
      funext l
      apply decide_eq_decide.mpr
      rw [show z * xR - (scaleSL z l).screenXRight = z * (xR - l.screenXRight) from by
          unfold scaleSL; ring,
        mul_div_mul_left _ _ hzne]
    rw [show (fun x => decide (WHITESPACE_THRESHOLD <
        (z * xR - (scaleSL z x).screenXRight) / (z * (xR - xL)))) =
        (fun l => decide (WHITESPACE_THRESHOLD < (xR - l.screenXRight) / (xR - xL))) from hcond]
    rw [List.map_map, List.map_map]
    apply List.map_congr_left
    intro l hl
    unfold scaleInd scaleSL
    simp only [Function.comp_apply, WhitespaceIndicator.mk.injEq]
    refine ⟨?_, ?_, ?_, ?_, ?_⟩
    · trivial
    · ring
    · ring
    · trivial
    · rw [show z * l.screenXRight - z * xL = z * (l.screenXRight - xL) from by ring,
        mul_div_mul_left _ _ hzne]

/-- The whitespace indicators at zoom z are exactly the scale-1 indicators
with x and width multiplied by z, y mapped affinely, and the same line text
and utilization ratio. -/
theorem analyzeWhitespace_scale (z H : ℚ) (hz : 0 < z) (items : List TItem) :
    analyzeWhitespace z H items = (analyzeWhitespace 1 H items).map (scaleInd z) := by
  unfold analyzeWhitespace
  cases hfy : firstSectionPdfY (wsLineMap items) with
  | none => rfl
  | some fy =>
    simp only
    by_cases hre : (relevantLines (wsLineMap items) fy).isEmpty
    · rw [if_pos hre, if_pos hre]
      rfl
    · rw [if_neg hre, if_neg hre]
      rw [show (relevantLines (wsLineMap items) fy).map (toScreenLine z H) =
          ((relevantLines (wsLineMap items) fy).map (toScreenLine 1 H)).map (scaleSL z) from by
        rw [List.map_map]
        exact List.map_congr_left (fun kv _ => toScreenLine_mul z H (le_of_lt hz) kv)]
      exact wsIndicators_scale z hz _

/-! ## Season-date detector (analyzeSeasonDates, source lines 193–270) -/

/-- The season alternation Spring|Fall|Summer|Winter (no word is a prefix of
another, so first-match order cannot differ from the regex alternation). -/
def seasonWords : List JStr := [js "Spring", js "Fall", js "Summer", js "Winter"]

/-- Try to read a season word (case-insensitively) at the head of s,
returning the text as written and the rest. -/
def matchSeason (s : JStr) : Option (JStr × JStr) :=
  (seasonWords.find? (fun w => ciStartsWith w s)).map
    (fun w => (s.take w.length, s.drop w.length))

/-- Read exactly four digits at the head of s (the \d{4} atom). -/
def take4Digits (s : JStr) : Option (JStr × JStr) :=
  let d := s.take 4
  if d.length == 4 && d.all Char.isDigit then some (d, s.drop 4) else none

/-- One attempt of /(Spring|Fall|Summer|Winter)\s+(\d{4})\b/ at the current
position (the caller checks the leading word boundary): season word, then at
least one whitespace, then four digits followed by a word boundary. -/
def inlineAt (s : JStr) : Option (JStr × JStr × JStr) :=
  match matchSeason s with
  | none => none
  | some (sw, r1) =>
    if (r1.takeWhile isJsWs).isEmpty then none
    else
      match take4Digits (r1.dropWhile isJsWs) with
      | none => none
      | some (yr, r3) => if boundaryOk r3 then some (sw, yr, r3) else none

/-- Global scan of /\b(Spring|Fall|Summer|Winter)\s+(\d{4})\b/gi over one
string: leftmost matches from left to right, resuming after each match as
exec does with lastIndex (fuel bounds the character cursor). -/
def inlineSeasonYearGo : ℕ → Bool → JStr → List (JStr × JStr)
  | 0, _, _ => []
  | _ + 1, _, [] => []
  | f + 1, prevW, c :: cs =>
    if !prevW then
      match inlineAt (c :: cs) with
      | some (sw, yr, r3) => (sw, yr) :: inlineSeasonYearGo f true r3
      | none => inlineSeasonYearGo f (isWordChar c) cs
    else inlineSeasonYearGo f (isWordChar c) cs

/-- All matches of the in-fragment season-year pattern. -/
def inlineSeasonYear (s : JStr) : List (JStr × JStr) :=
  inlineSeasonYearGo s.length false s

/-- /\b(Spring|Fall|Summer|Winter)\s*$/i — a season word at a word boundary
followed only by whitespace up to the end of the string. -/
def trailingSeasonGo : ℕ → Bool → JStr → Option JStr
  | 0, _, _ => none
  | _ + 1, _, [] => none
  | f + 1, prevW, c :: cs =>
    if !prevW then
      match matchSeason (c :: cs) with
      | some (sw, r1) =>
        if r1.all isJsWs then some sw else trailingSeasonGo f (isWordChar c) cs
      | none => trailingSeasonGo f (isWordChar c) cs
    else trailingSeasonGo f (isWordChar c) cs

def trailingSeason (s : JStr) : Option JStr := trailingSeasonGo s.length false s

/-- /^(\d{4})\b/ — four digits at the start of the string followed by a word
boundary. -/
def leadingYear (s : JStr) : Option JStr :=
  match take4Digits s with
  | some (yr, r) => if boundaryOk r then some yr else none
  | none => none

/-- The text-content item mapping shared by the season and degree analysers:
drop whitespace-only strings, default a zero height to 12 (the || 12). -/
def itemsOf (pg : PageInput) : List TItem :=
  (pg.items.filter (fun it => !(trimJ it.str).isEmpty)).map
    (fun it => { it with height := if it.height == 0 then 12 else it.height })

/-- One pushIssue call during the season scan, identified by the matched
season and year text, the indices of the start and end items, and whether it
came from the split (trailing season / leading year) form. -/
structure SeasonEvent where
  season : JStr
  year : JStr
  startIdx : ℕ
  endIdx : ℕ
  split : Bool
deriving DecidableEq

/-- The bounded lookahead of the split form: the first j in
[i+1, min(i+4, n)) whose item text starts with a 4-digit year (the inner
loop breaks at the first hit and never consults matchedIndices). -/
def lookaheadYear (items : List TItem) (i : ℕ) : Option (ℕ × JStr) :=
  ((List.range' (i + 1) (min (i + 4) items.length - (i + 1))).filterMap
    (fun j => (leadingYear (items.getD j noItem).str).map (fun y => (j, y)))).head?

/-- The per-item loop of analyzeSeasonDates over the index list, carrying
the matchedIndices set (as a membership list): skip consumed indices; all
in-fragment matches first (marking the index), otherwise the split form
(marking both indices). Returns the pushIssue events in order and the final
matched set. -/
def seasonGo (items : List TItem) : List ℕ → List ℕ → List SeasonEvent × List ℕ
  | [], matched => ([], matched)
  | i :: rest, matched =>
    if i ∈ matched then seasonGo items rest matched
    else
      let inl := inlineSeasonYear (items.getD i noItem).str
      if inl.isEmpty then
        match trailingSeason (items.getD i noItem).str with
        | none => seasonGo items rest matched
        | some sw =>
          match lookaheadYear items i with
          | none => seasonGo items rest matched
          | some (j, yr) =>
            let r := seasonGo items rest (j :: i :: matched)
            (⟨sw, yr, i, j, true⟩ :: r.1, r.2)
      else
        let r := seasonGo items rest (i :: matched)
        ((inl.map (fun p => ⟨p.1, p.2, i, i, false⟩)) ++ r.1, r.2)

/-- The full per-page season scan over all item indices. -/
def seasonScan (items : List TItem) : List SeasonEvent × List ℕ :=
  seasonGo items (List.range items.length) []

/-- One season-date issue (geometry in scale-1 viewport coordinates). -/
structure SeasonIssue where
  season : JStr
  year : JStr
  suggestedMonth : JStr
  page : ℕ
  baseX : ℚ
  baseY : ℚ
  baseWidth : ℚ
  baseHeight : ℚ
deriving DecidableEq

/-- pushIssue (source lines 218–234) for an event on a page of height H:
start/end coordinates go through the scale-1 viewport; the box top is the
baseline minus the item height (|| 12 re-applied as in the source). -/
def seasonEventIssue (H : ℚ) (pageNum : ℕ) (items : List TItem) (e : SeasonEvent) : SeasonIssue :=
  let st := items.getD e.startIdx noItem
  let en := items.getD e.endIdx noItem
  let baseX := (convertToViewportPoint 1 H st.x st.y).1
  let baseYBaseline := (convertToViewportPoint 1 H st.x st.y).2
  let baseXRight := (convertToViewportPoint 1 H (en.x + en.width) en.y).1
  let h := if st.height == 0 then 12 else st.height
  { season := e.season
    year := e.year
    suggestedMonth := SEASON_TO_MONTH (toLowerJ e.season)
    page := pageNum
    baseX := baseX
    baseY := baseYBaseline - h
    baseWidth := baseXRight - baseX
    baseHeight := h }

/-- The per-page list of season issues, in push order. -/
def seasonIssuesPage (pageNum : ℕ) (pg : PageInput) : List SeasonIssue :=
  let items := itemsOf pg
  ((seasonScan items).1).map (seasonEventIssue pg.height pageNum items)

/-- The document-wide season-date analysis over pages 1..n. -/
def analyzeSeasonDates (doc : List PageInput) : List SeasonIssue :=
  (doc.enum.map (fun pe => seasonIssuesPage (pe.1 + 1) pe.2)).flatten

/-! ### C6: concrete season-date behaviour -/

def c6aItems : List TItem := [⟨js "Fall", 100, 700, 20, 10⟩, ⟨js "2023 - Present", 130, 700, 60, 10⟩]
def c6aDoc : List PageInput := [⟨792, c6aItems⟩]
def c6bDoc : List PageInput := [⟨792, [⟨js "Summer 2022 to Fall 2022", 100, 700, 120, 10⟩]⟩]

/-- C6: the adjacent fragments "Fall" and "2023 - Present" yield exactly one
SeasonDateIssue (Fall, 2023, December); the single fragment
"Summer 2022 to Fall 2022" yields exactly two issues, with the suggested
months following the fixed mapping Spring→May, Summer→August, Fall→December,
Winter→December. -/
theorem c6_season_examples :
    ((analyzeSeasonDates c6aDoc).map (fun i => (i.season, i.year, i.suggestedMonth)) =
      [(js "Fall", js "2023", js "December")]) ∧
    ((analyzeSeasonDates c6bDoc).map (fun i => (i.season, i.year, i.suggestedMonth)) =
      [(js "Summer", js "2022", js "August"), (js "Fall", js "2022", js "December")]) ∧
    (SEASON_TO_MONTH (js "spring") = js "May" ∧ SEASON_TO_MONTH (js "summer") = js "August" ∧
      SEASON_TO_MONTH (js "fall") = js "December" ∧
      SEASON_TO_MONTH (js "winter") = js "December") := by
  exact ⟨by decide, by decide, by decide, by decide, by decide, by decide⟩

/-! ### C7: consumption discipline of the split form -/

def c7Items : List TItem :=
  [⟨js "Fall", 0, 700, 20, 10⟩, ⟨js "Spring", 0, 690, 25, 10⟩, ⟨js "2023 - Present", 0, 680, 50, 10⟩]

/-- C7 counterexample: on fragments ["Fall", "Spring", "2023 - Present"],
fragment 2 is consumed by the split pair (0, 2) and nevertheless serves as
the year of the second split pair (1, 2) — the lookahead loop never checks
matchedIndices — so a consumed fragment does participate in a further
season-date match within the same pass. -/
theorem c7_counterexample :
    ((seasonScan c7Items).1.map (fun e => (e.startIdx, e.endIdx, e.split)) =
      [(0, 2, true), (1, 2, true)]) ∧
    ¬ (∀ e1 ∈ (seasonScan c7Items).1, ∀ e2 ∈ (seasonScan c7Items).1,
        e1 ≠ e2 → e1.endIdx ≠ e2.endIdx) :=
  ⟨by decide, by decide⟩

/-- One unfolding step of seasonGo on a cons index list. -/
theorem seasonGo_cons (items : List TItem) (i : ℕ) (rest matched : List ℕ) :
    seasonGo items (i :: rest) matched =
      if i ∈ matched then seasonGo items rest matched
      else
        let inl := inlineSeasonYear (items.getD i noItem).str
        if inl.isEmpty then
          match trailingSeason (items.getD i noItem).str with
          | none => seasonGo items rest matched
          | some sw =>
            match lookaheadYear items i with
            | none => seasonGo items rest matched
            | some (j, yr) =>
              let r := seasonGo items rest (j :: i :: matched)
              (⟨sw, yr, i, j, true⟩ :: r.1, r.2)
        else
          let r := seasonGo items rest (i :: matched)
          ((inl.map (fun p => ⟨p.1, p.2, i, i, false⟩)) ++ r.1, r.2) := rfl

theorem seasonGo_matched_mono (items : List TItem) :
    ∀ (idxs matched : List ℕ) (x : ℕ), x ∈ matched → x ∈ (seasonGo items idxs matched).2 := by
  intro idxs
  induction idxs with
  | nil => intro matched x hx; exact hx
  | cons i rest ih =>
    intro matched x hx
    rw [seasonGo_cons]
    by_cases hm : i ∈ matched
    · rw [if_pos hm]
      exact ih _ _ hx
    · rw [if_neg hm]
      dsimp only
      by_cases hin : (inlineSeasonYear (items.getD i noItem).str).isEmpty
      · rw [if_pos hin]
        cases hts : trailingSeason (items.getD i noItem).str with
        | none => exact ih _ _ hx
        | some sw =>
          cases hla : lookaheadYear items i with
          | none => exact ih _ _ hx
          | some jy =>
            obtain ⟨j, yr⟩ := jy
            dsimp only
            exact ih _ _ (List.mem_cons_of_mem _ (List.mem_cons_of_mem _ hx))
      · rw [if_neg hin]
        dsimp only
        exact ih _ _ (List.mem_cons_of_mem _ hx)

theorem seasonGo_events_start (items : List TItem) :
    ∀ (idxs matched : List ℕ) (e : SeasonEvent),
      e ∈ (seasonGo items idxs matched).1 → e.startIdx ∈ idxs := by
  intro idxs
  induction idxs with
  | nil =>
    intro matched e he
    simp [seasonGo] at he
  | cons i rest ih =>
    intro matched e he
    rw [seasonGo_cons] at he
    by_cases hm : i ∈ matched
    · rw [if_pos hm] at he
      exact List.mem_cons_of_mem _ (ih _ e he)
    · rw [if_neg hm] at he
      dsimp only at he
      by_cases hin : (inlineSeasonYear (items.getD i noItem).str).isEmpty
      · rw [if_pos hin] at he
        cases hts : trailingSeason (items.getD i noItem).str with
        | none =>
          rw [hts] at he
          exact List.mem_cons_of_mem _ (ih _ e he)
        | some sw =>
          rw [hts] at he
          cases hla : lookaheadYear items i with
          | none =>
            rw [hla] at he
            exact List.mem_cons_of_mem _ (ih _ e he)
          | some jy =>
            obtain ⟨j, yr⟩ := jy
            rw [hla] at he
            dsimp only at he
            rcases List.mem_cons.mp he with he | he
            · rw [he]
              exact List.mem_cons_self _ _
            · exact List.mem_cons_of_mem _ (ih _ e he)
      · rw [if_neg hin] at he
        dsimp only at he
        rcases List.mem_append.mp he with he | he
        · rcases List.mem_map.mp he with ⟨p, hp, hpe⟩
          rw [← hpe]
          exact List.mem_cons_self _ _
        · exact List.mem_cons_of_mem _ (ih _ e he)

theorem seasonGo_split_consumed (items : List TItem) :
    ∀ (idxs matched : List ℕ) (e : SeasonEvent), e ∈ (seasonGo items idxs matched).1 →
      e.split = true →
      e.startIdx ∈ (seasonGo items idxs matched).2 ∧ e.endIdx ∈ (seasonGo items idxs matched).2 := by
  intro idxs
  induction idxs with
  | nil =>
    intro matched e he _
    simp [seasonGo] at he
  | cons i rest ih =>
    intro matched e he hs
    rw [seasonGo_cons] at he ⊢
    by_cases hm : i ∈ matched
    · rw [if_pos hm] at he ⊢
      exact ih _ e he hs
    · rw [if_neg hm] at he ⊢
      dsimp only at he ⊢
      by_cases hin : (inlineSeasonYear (items.getD i noItem).str).isEmpty
      · rw [if_pos hin] at he ⊢
        cases hts : trailingSeason (items.getD i noItem).str with
        | none =>
          rw [hts] at he
          dsimp only at he ⊢
          exact ih _ e he hs
        | some sw =>
          rw [hts] at he
          dsimp only at he ⊢
          cases hla : lookaheadYear items i with
          | none =>
            rw [hla] at he
            dsimp only at he ⊢
            exact ih _ e he hs
          | some jy =>
            obtain ⟨j, yr⟩ := jy
            rw [hla] at he
            dsimp only at he ⊢
            rcases List.mem_cons.mp he with he | he
            · rw [he]
              exact ⟨seasonGo_matched_mono items rest _ i
                  (List.mem_cons_of_mem _ (List.mem_cons_self _ _)),
                seasonGo_matched_mono items rest _ j (List.mem_cons_self _ _)⟩
            · exact ih _ e he hs
      · rw [if_neg hin] at he ⊢
        dsimp only at he ⊢
        rcases List.mem_append.mp he with he | he
        · rcases List.mem_map.mp he with ⟨p, hp, hpe⟩
          rw [← hpe] at hs
          simp at hs
        · exact ih _ e he hs

theorem seasonGo_split_pairwise (items : List TItem) :
    ∀ (idxs : List ℕ), idxs.Nodup → ∀ (matched : List ℕ),
      ((seasonGo items idxs matched).1.filter (fun e => e.split)).Pairwise
        (fun a b => a.startIdx ≠ b.startIdx) := by
  intro idxs
  induction idxs with
  | nil =>
    intro _ matched
    simp [seasonGo]
  | cons i rest ih =>
    intro hnd matched
    obtain ⟨hni, hndr⟩ := List.nodup_cons.mp hnd
    rw [seasonGo_cons]
    by_cases hm : i ∈ matched
    · rw [if_pos hm]
      exact ih hndr _
    · rw [if_neg hm]
      dsimp only
      by_cases hin : (inlineSeasonYear (items.getD i noItem).str).isEmpty
      · rw [if_pos hin]
        cases hts : trailingSeason (items.getD i noItem).str with
        | none => exact ih hndr _
        | some sw =>
          cases hla : lookaheadYear items i with
          | none => exact ih hndr _
          | some jy =>
            obtain ⟨j, yr⟩ := jy
            dsimp only
            rw [List.filter_cons]
            simp only [decide_eq_true_eq, if_pos]
            refine List.Pairwise.cons ?_ (ih hndr _)
            intro b hb
            have hbr := seasonGo_events_start items rest _ b (List.mem_of_mem_filter hb)
            intro hce
            rw [← hce] at hbr
            exact hni hbr
      · rw [if_neg hin]
        dsimp only
        rw [List.filter_append]
        have hmapnil : ∀ l : List (JStr × JStr),
            ((l.map (fun p => (⟨p.1, p.2, i, i, false⟩ : SeasonEvent))).filter
              (fun e => e.split)) = [] := by
          intro l
          induction l with
          | nil => rfl
          | cons p t iht => simp [iht]
        rw [hmapnil]
        simp only [List.nil_append]
        exact ih hndr _

/-- C7 (amended): in the split form, both fragments of a pair are marked
consumed (they are in the final matchedIndices set), and a consumed fragment
never starts another match — the split events of one pass have pairwise
distinct season-side (start) indices — but the year-side lookahead does not
check consumption, so the year fragment may be re-used by a later split pair
(c7_counterexample). -/
theorem c7_split_consumption (items : List TItem) :
    (∀ e ∈ (seasonScan items).1, e.split = true →
        e.startIdx ∈ (seasonScan items).2 ∧ e.endIdx ∈ (seasonScan items).2) ∧
    ((seasonScan items).1.filter (fun e => e.split)).Pairwise
      (fun a b => a.startIdx ≠ b.startIdx) :=
  ⟨fun e he hs => seasonGo_split_consumed items _ _ e he hs,
    seasonGo_split_pairwise items _ (List.nodup_range _) _⟩

/-- Witness for c7_split_consumption: both indices of the first split pair
of the concrete scan are in the final consumed set. -/
theorem c7_split_consumption_witness :
    ((⟨js "Fall", js "2023", 0, 2, true⟩ : SeasonEvent) ∈ (seasonScan c7Items).1 ∧
      (⟨js "Fall", js "2023", 0, 2, true⟩ : SeasonEvent).split = true) ∧
    (0 ∈ (seasonScan c7Items).2 ∧ 2 ∈ (seasonScan c7Items).2) :=
  ⟨⟨by decide, by decide⟩,
    (c7_split_consumption c7Items).1 ⟨js "Fall", js "2023", 0, 2, true⟩ (by decide) (by decide)⟩

/-! ## Degree-abbreviation detector (analyzeDegreeAbbreviations, lines 279–357)

The five abbreviation regexes are built from a tiny alternatives semantics:
a pattern maps a string to the list of possible (consumed length, rest)
pairs in backtracking priority order (greedy options first); a match at a
position is the first alternative whose rest passes the trailing negative
lookahead — exactly the JS backtracking order for these patterns. -/

/-- Alternatives semantics of a regex piece. -/
def RAlt : Type := JStr → List (ℕ × JStr)

/-- Single character matching a class predicate. -/
def rchar (p : Char → Bool) : RAlt := fun s =>
  match s with
  | c :: r => if p c then [(1, r)] else []
  | [] => []

/-- Sequencing (priority order is lexicographic in the operands). -/
def rseq (a b : RAlt) : RAlt := fun s =>
  ((a s).map (fun nr => (b nr.2).map (fun ms => (nr.1 + ms.1, ms.2)))).flatten

/-- Greedy option: take the piece if possible, else skip it. -/
def ropt (a : RAlt) : RAlt := fun s => a s ++ [(0, s)]

/-- Greedy counted repetition {0,k}: prefer more repetitions. -/
def rreps (a : RAlt) : ℕ → RAlt
  | 0 => fun s => [(0, s)]
  | k + 1 => fun s => rseq a (rreps a k) s ++ [(0, s)]

/-- First alternative whose rest passes the trailing lookahead. -/
def rmatchLen (a : RAlt) (look : JStr → Bool) (s : JStr) : Option ℕ :=
  (((a s).filter (fun nr => look nr.2)).head?).map (·.1)

def rdot : RAlt := rchar (· == '.')

/-- \bB\.?[Ss]c?\.{0,3}(?![a-zA-Z]) without the boundary and lookahead. -/
def absBS : RAlt :=
  rseq (rchar (· == 'B')) (rseq (ropt rdot)
    (rseq (rchar (fun c => c == 'S' || c == 's')) (rseq (ropt (rchar (· == 'c'))) (rreps rdot 3))))

/-- \bB\.?[Aa]\.{0,2}(?![a-zA-Z]) core. -/
def absBA : RAlt :=
  rseq (rchar (· == 'B')) (rseq (ropt rdot)
    (rseq (rchar (fun c => c == 'A' || c == 'a')) (rreps rdot 2)))

/-- \bM\.?[Ss]c?\.{0,2}(?![a-zA-Z]) core. -/
def absMS : RAlt :=
  rseq (rchar (· == 'M')) (rseq (ropt rdot)
    (rseq (rchar (fun c => c == 'S' || c == 's')) (rseq (ropt (rchar (· == 'c'))) (rreps rdot 2))))

/-- \bPh\.?D\.{0,2}(?![a-zA-Z]) core. -/
def absPhD : RAlt :=
  rseq (rchar (· == 'P')) (rseq (rchar (· == 'h'))
    (rseq (ropt rdot) (rseq (rchar (· == 'D')) (rreps rdot 2))))

/-- \bM\.?B\.?A\.{0,2}(?![a-zA-Z]) core. -/
def absMBA : RAlt :=
  rseq (rchar (· == 'M')) (rseq (ropt rdot)
    (rseq (rchar (· == 'B')) (rseq (ropt rdot) (rseq (rchar (· == 'A')) (rreps rdot 2)))))

/-- Leftmost match of an abbreviation pattern: walk the string tracking the
word boundary (every pattern starts with a letter, so \b is equivalent to
the previous character not being a word character), and at the first
position where the core matches with the (?![a-zA-Z]) lookahead return the
matched text. -/
def abbrevFindGo (a : RAlt) : ℕ → Bool → JStr → Option JStr
  | 0, _, _ => none
  | _ + 1, _, [] => none
  | f + 1, prevW, c :: cs =>
    if !prevW then
      match rmatchLen a lookNotAlpha (c :: cs) with
      | some n => some ((c :: cs).take n)
      | none => abbrevFindGo a f (isWordChar c) cs
    else abbrevFindGo a f (isWordChar c) cs

def abbrevFind (a : RAlt) (s : JStr) : Option JStr := abbrevFindGo a s.length false s

/-- /\b<literal>\b/i test: the literal occurs case-insensitively with word
boundaries on both sides (the formal degree names begin and end with
letters). -/
def ciWordLitGo (lit : JStr) : ℕ → Bool → JStr → Bool
  | 0, _, _ => false
  | _ + 1, _, [] => false
  | f + 1, prevW, c :: cs =>
    (!prevW && ciStartsWith lit (c :: cs) && boundaryOk ((c :: cs).drop lit.length)) ||
      ciWordLitGo lit f (isWordChar c) cs

def ciWordLit (lit : JStr) (s : JStr) : Bool := ciWordLitGo lit s.length false s

/-- Case-sensitive leftmost occurrence of a literal (the escaped abbreviation
is a literal pattern), as a position. -/
def litFindGo (pat : JStr) : ℕ → ℕ → JStr → Option ℕ
  | 0, pos, s => if pat.isPrefixOf s then some pos else none
  | f + 1, pos, s =>
    if pat.isPrefixOf s then some pos
    else
      match s with
      | [] => none
      | _ :: cs => litFindGo pat f (pos + 1) cs

/-- .replace(new RegExp(escapedAbbrev + '[.,\s]*'), ''): remove the first
occurrence of the abbreviation text together with the following run of
dots, commas and whitespace. -/
def stripAbbrevOnce (pat s : JStr) : JStr :=
  match litFindGo pat s.length 0 s with
  | none => s
  | some p =>
    s.take p ++ ((s.drop (p + pat.length)).dropWhile (fun c => c == '.' || c == ',' || isJsWs c))

/-- The boilerplate alternation of
/(Graduating|Expected|GPA|University|College|\b\d{4}\b).*$/i. -/
def bpWords : List JStr :=
  [js "Graduating", js "Expected", js "GPA", js "University", js "College"]

/-- Leftmost position where the boilerplate alternation matches: a literal
(case-insensitive, no boundary) or a 4-digit run with word boundaries on
both sides. -/
def cutAtGo : ℕ → Bool → ℕ → JStr → Option ℕ
  | 0, _, _, _ => none
  | _ + 1, _, _, [] => none
  | f + 1, prevW, pos, c :: cs =>
    if bpWords.any (fun w => ciStartsWith w (c :: cs)) then some pos
    else if !prevW &&
        (match take4Digits (c :: cs) with
          | some (_, r) => boundaryOk r
          | none => false) then some pos
    else cutAtGo f (isWordChar c) (pos + 1) cs

/-- .replace(/(Graduating|Expected|GPA|University|College|\b\d{4}\b).*$/i, ''):
truncate at the leftmost boilerplate match (the .*$ tail removes the rest;
the analysers never feed strings with line terminators). -/
def cutBoilerplate (s : JStr) : JStr :=
  match cutAtGo s.length false 0 s with
  | some p => s.take p
  | none => s

/-- .replace(/^[,\s]+/, ''). -/
def stripLeadingCommaWs (s : JStr) : JStr :=
  s.dropWhile (fun c => c == ',' || isJsWs c)

/-- One entry of DEGREE_CHECKS: abbreviation pattern core, formal-name
literal for the presence test, and the recommended full label. -/
structure DegreeCheck where
  pat : RAlt
  fullLit : JStr
  fullLabel : JStr

def DEGREE_CHECKS : List DegreeCheck :=
  [⟨absBS, js "Bachelor of Science", js "Bachelor of Science"⟩,
   ⟨absBA, js "Bachelor of Arts", js "Bachelor of Arts"⟩,
   ⟨absMS, js "Master of Science", js "Master of Science"⟩,
   ⟨absPhD, js "Doctor of Philosophy", js "Doctor of Philosophy"⟩,
   ⟨absMBA, js "Master of Business Administration", js "Master of Business Administration"⟩]

/-- One degree-abbreviation issue (geometry at scale = 1). -/
structure DegreeIssue where
  abbreviated : JStr
  suggested : JStr
  page : ℕ
  baseX : ℚ
  baseY : ℚ
  baseWidth : ℚ
  baseHeight : ℚ
deriving DecidableEq

/-- The first item whose text matches the abbreviation pattern, with the
matched text (the per-check inner loop, which breaks at the first hit). -/
def firstAbbrevHit (a : RAlt) (items : List TItem) : Option (ℕ × JStr) :=
  (((List.range items.length).filterMap
    (fun i => (abbrevFind a (items.getD i noItem).str).map (fun m => (i, m))))).head?

/-- The per-page degree analysis: for each check in order, skip it when the
formal name already occurs in the page text, otherwise flag the first item
matching the abbreviation, reconstructing the line text (same baseline-y
within tolerance, sorted by x, joined with spaces) and deriving the field by
stripping the abbreviation, the boilerplate tail and leading punctuation. -/
def degreeIssuesPage (pageNum : ℕ) (pg : PageInput) : List DegreeIssue :=
  let items := itemsOf pg
  let fullText := joinSp (items.map (·.str))
  DEGREE_CHECKS.foldr
    (fun ck acc =>
      if ciWordLit ck.fullLit fullText then acc
      else
        match firstAbbrevHit ck.pat items with
        | none => acc
        | some (i, abbreviated) =>
          let it := items.getD i noItem
          let lineText := trimJ (joinSp
            ((sortByX (items.filter
              (fun o => decide (|o.y - it.y| ≤ LINE_TOLERANCE_PTS)))).map (·.str)))
          let field := trimJ (stripLeadingCommaWs (cutBoilerplate
            (stripAbbrevOnce abbreviated lineText)))
          let suggested :=
            if field.isEmpty then ck.fullLabel else ck.fullLabel ++ js " in " ++ field
          let baseX := (convertToViewportPoint 1 pg.height it.x it.y).1
          let baseYBaseline := (convertToViewportPoint 1 pg.height it.x it.y).2
          let baseXRight := (convertToViewportPoint 1 pg.height (it.x + it.width) it.y).1
          let h := if it.height == 0 then 12 else it.height
          ⟨abbreviated, suggested, pageNum, baseX, baseYBaseline - h, baseXRight - baseX, h⟩ :: acc)
    []

/-- The document-wide degree-abbreviation analysis over pages 1..n. -/
def analyzeDegreeAbbreviations (doc : List PageInput) : List DegreeIssue :=
  (doc.enum.map (fun pe => degreeIssuesPage (pe.1 + 1) pe.2)).flatten

/-! ### C5: concrete degree-detector behaviour -/

def c5aDoc : List PageInput :=
  [⟨792, [⟨js "B.S. Computer Science, Expected 2025", 50, 700, 150, 10⟩]⟩]
def c5bDoc : List PageInput :=
  [⟨792, [⟨js "B.S. Computer Science, Expected 2025", 50, 700, 150, 10⟩,
    ⟨js "Bachelor of Science", 50, 650, 80, 10⟩]⟩]

/-- C5 counterexample: the page "B.S. Computer Science, Expected 2025"
yields exactly one issue, but its suggested text is not
"Bachelor of Science in Computer Science" — the comma following the major
on the line survives the field extraction. -/
theorem c5_counterexample :
    (analyzeDegreeAbbreviations c5aDoc).length = 1 ∧
    ¬ ((analyzeDegreeAbbreviations c5aDoc).map (·.suggested) =
        [js "Bachelor of Science in Computer Science"]) :=
  ⟨by decide, by decide⟩

/-- C5 (amended): on a page containing "B.S. Computer Science, Expected
2025" and no occurrence of "Bachelor of Science", the detector emits exactly
one DegreeAbbreviationIssue, for the matched text "B.S.", whose suggestion is
"Bachelor of Science in Computer Science," — with the comma of the source
line retained after the boilerplate cut; when the page also contains the
literal "Bachelor of Science", it emits zero issues for that degree type
(and for this page zero issues at all). -/
theorem c5_degree_detector :
    ((analyzeDegreeAbbreviations c5aDoc).map (fun i => (i.abbreviated, i.suggested)) =
      [(js "B.S.", js "Bachelor of Science in Computer Science,")]) ∧
    analyzeDegreeAbbreviations c5bDoc = [] :=
  ⟨by decide, by decide⟩

/-! ## Margin state and the full analysis pass (source lines 161–185, 471–484) -/

/-- The margin state set by analyzeMargins (CSS pixels plus page size). -/
structure MarginData where
  top : ℚ
  bottom : ℚ
  left : ℚ
  right : ℚ
  pageWidth : ℚ
  pageHeight : ℚ
deriving DecidableEq

/-- analyzeMargins: read the canvas, convert physical-pixel margins to CSS
pixels through the physical/CSS ratio; a null scanner result sets no state. -/
def analyzeMargins (cv : Canvas) : Option MarginData :=
  match detectWhitespaceMargins cv with
  | none => none
  | some m =>
    let pxPerCss := (cv.physW : ℚ) / cv.cssW
    some ⟨(m.top : ℚ) / pxPerCss, (m.bottom : ℚ) / pxPerCss,
      (m.left : ℚ) / pxPerCss, (m.right : ℚ) / pxPerCss, cv.cssW, cv.cssH⟩

/-- The state written by one full analysis pass: the margin state from the
render callback, the whitespace indicators for the current page at the
current zoom, and the document-wide season and degree issues from the load
callback. -/
structure PassResult where
  marginData : Option MarginData
  whitespace : List WhitespaceIndicator
  seasons : List SeasonIssue
  degrees : List DegreeIssue

/-- One full pass over the document for the selected page and zoom. -/
def runPass (doc : List PageInput) (pageNumber : ℕ) (zoom : ℚ) (cv : Canvas) : PassResult :=
  let pg := doc.getD (pageNumber - 1) ⟨0, []⟩
  { marginData := analyzeMargins cv
    whitespace := analyzeWhitespace zoom pg.height pg.items
    seasons := analyzeSeasonDates doc
    degrees := analyzeDegreeAbbreviations doc }

/-- C9: when the page raster cannot be read (no 2D context or a throwing
pixel read, both modelled by pixels = none), the pass sets no margin state,
and the line-whitespace, season-date and degree detectors produce exactly
the findings they produce for any readable raster. -/
theorem c9_margin_failure_isolated (doc : List PageInput) (pn : ℕ) (zoom : ℚ)
    (w h : ℕ) (cw ch : ℚ) (d : ℕ → ℕ) :
    (runPass doc pn zoom ⟨w, h, cw, ch, none⟩).marginData = none ∧
    (runPass doc pn zoom ⟨w, h, cw, ch, none⟩).whitespace =
      (runPass doc pn zoom ⟨w, h, cw, ch, some d⟩).whitespace ∧
    (runPass doc pn zoom ⟨w, h, cw, ch, none⟩).seasons =
      (runPass doc pn zoom ⟨w, h, cw, ch, some d⟩).seasons ∧
    (runPass doc pn zoom ⟨w, h, cw, ch, none⟩).degrees =
      (runPass doc pn zoom ⟨w, h, cw, ch, some d⟩).degrees :=
  ⟨rfl, rfl, rfl, rfl⟩

/-! ### C1: zoom dependence of the emitted geometry -/

def c1Doc : List PageInput := [⟨792, c4Items⟩]

/-- C1 counterexample: the line-whitespace indicators are not zoom
independent — at zoom 2 the flagged line's x is 80 while at zoom 1 it is 40,
so the engine does emit zoom-scaled coordinates for this detector. -/
theorem c1_counterexample :
    (runPass c1Doc 1 2 whiteCanvas).whitespace.map (·.x) = [80] ∧
    (runPass c1Doc 1 1 whiteCanvas).whitespace.map (·.x) = [40] ∧
    (runPass c1Doc 1 2 whiteCanvas).whitespace ≠ (runPass c1Doc 1 1 whiteCanvas).whitespace :=
  ⟨by decide, by decide, by decide⟩

/-- C1 (amended): season-date and degree-abbreviation issues carry scale-1
viewport geometry independent of the current zoom (and of the canvas), while
the line-whitespace indicators are emitted in live-zoom screen coordinates:
at zoom z > 0 they are the scale-1 indicators with x and width multiplied by
z and y mapped affinely, with line text and utilization unchanged (the
presentation layer renders them without rescaling and the engine clears them
on zoom change). -/
theorem c1_zoom_geometry (doc : List PageInput) (pn : ℕ) (z zq : ℚ) (cv cvq : Canvas)
    (hz : 0 < z) :
    (runPass doc pn z cv).seasons = (runPass doc pn zq cvq).seasons ∧
    (runPass doc pn z cv).degrees = (runPass doc pn zq cvq).degrees ∧
    (runPass doc pn z cv).whitespace = ((runPass doc pn 1 cv).whitespace).map (scaleInd z) :=
  ⟨rfl, rfl, analyzeWhitespace_scale z _ hz _⟩

/-- Witness for c1_zoom_geometry at zoom 2 on the concrete page. -/
theorem c1_zoom_geometry_witness :
    (0 : ℚ) < 2 ∧
    (runPass c1Doc 1 2 whiteCanvas).whitespace =
      ((runPass c1Doc 1 1 whiteCanvas).whitespace).map (scaleInd 2) :=
  ⟨by decide, (c1_zoom_geometry c1Doc 1 2 2 whiteCanvas whiteCanvas (by decide)).2.2⟩

/-! ## Zoom controls (zoomIn / zoomOut, source lines 495–506) -/

/-- Array.prototype.indexOf: first index of the value, -1 when absent. -/
def jsIndexOf (s : ℚ) (l : List ℚ) : Int :=
  match l.findIdx? (fun x => x == s) with
  | some n => (n : Int)
  | none => -1

/-- zoomIn: step to the next zoom level unless already at the last index. -/
def zoomIn (scale : ℚ) : ℚ :=
  let i := jsIndexOf scale ZOOM_LEVELS
  if i < (ZOOM_LEVELS.length : Int) - 1 then ZOOM_LEVELS.getD (i + 1).toNat 0 else scale

/-- zoomOut: step to the previous zoom level unless at index 0 (or absent). -/
def zoomOut (scale : ℚ) : ℚ :=
  let i := jsIndexOf scale ZOOM_LEVELS
  if i > 0 then ZOOM_LEVELS.getD (i - 1).toNat 0 else scale

inductive ZoomOp where
  | zin : ZoomOp
  | zout : ZoomOp

/-- A user's sequence of zoom clicks applied to a starting scale. -/
def applyZoomOps (ops : List ZoomOp) (s : ℚ) : ℚ :=
  ops.foldl (fun cur op => match op with | ZoomOp.zin => zoomIn cur | ZoomOp.zout => zoomOut cur) s

theorem zoom_mem_closure (s : ℚ) (hs : s ∈ ZOOM_LEVELS) :
    zoomIn s ∈ ZOOM_LEVELS ∧ zoomOut s ∈ ZOOM_LEVELS := by
  simp only [ZOOM_LEVELS, List.mem_cons, List.not_mem_nil, or_false] at hs
  rcases hs with rfl | rfl | rfl | rfl | rfl | rfl | rfl <;> exact ⟨by decide, by decide⟩

/-- C10: starting from the initial zoom 1.0, any sequence of zoomIn/zoomOut
clicks keeps the scale inside the fixed set {0.5, 0.75, 1.0, 1.25, 1.5,
1.75, 2.0}; zoomIn at the maximum 2.0 and zoomOut at the minimum 0.5 leave
the scale unchanged. -/
theorem c10_zoom_invariant :
    (∀ ops : List ZoomOp, applyZoomOps ops 1 ∈ ZOOM_LEVELS) ∧
    zoomIn 2 = 2 ∧ zoomOut 0.5 = 0.5 := by
  refine ⟨?_, by decide, by decide⟩
  have step : ∀ (ops : List ZoomOp) (s : ℚ), s ∈ ZOOM_LEVELS →
      applyZoomOps ops s ∈ ZOOM_LEVELS := by
    intro ops
    induction ops with
    | nil => intro s hs; exact hs
    | cons op rest ih =>
      intro s hs
      cases op with
      | zin => exact ih (zoomIn s) (zoom_mem_closure s hs).1
      | zout => exact ih (zoomOut s) (zoom_mem_closure s hs).2
  exact fun ops => step ops 1 (by decide)
